import Mathlib

/-!
Shallow embedding of `src/metrics.py` (Edge-Cache-Local): the Nginx log-line
parser `MetricsAnalyzer.parse_line` / `LOG_PATTERN`, the folding step
`process_log_line`, the whole-content run `process_log_content`, and the
derived statistics of `CacheMetrics` (`hit_ratio`, `error_rate`,
`p50_latency`, `p95_latency`, `p99_latency`).

Modelling decisions, each noted at the definition it concerns:
* Strings are `List Char`; characters are ASCII (Python's `\d`, `\w`, `\s`
  and `str.strip` also cover non-ASCII code points, which no claim touches).
* Latencies are exact rationals `ℚ` in place of IEEE doubles.  The only
  arithmetic the code performs on them is comparison, addition, halving and
  the index computation `int(len * 0.95)`; the index computation equals the
  exact `Nat` floor `len * 95 / 100` for every list length that fits in
  memory, because the double nearest `0.95` (resp. `0.99`) differs from it by
  about `1e-17`, far less than the `0.05` (resp. `0.01`) gap to the nearest
  integer boundary.
* The regex `LOG_PATTERN` is embedded as a maximal-munch scanner.  This is
  exact, not an approximation: in the pattern every quantified character
  class is immediately followed by a literal character that the class
  excludes (`[\d.]+` by a space, `[^\]]+` by `]`, `\w+` by a space, `[^\s]+`
  by a space, `[^"]+` and `[^"]*` by `"`, `\d+` by a space), so the one
  maximal-munch parse is the only parse the backtracking engine can ever
  produce, and shrinking any greedy run fails at once because the character
  then under the cursor belongs to the class and the pattern demands the
  excluded literal.
-/

namespace EdgeCache

/-- Python regex class `[\d.]` (ASCII): a digit or a dot.  Used by the `ip`
and `latency` groups of `LOG_PATTERN`. -/
def isDotDigit (c : Char) : Bool := c.isDigit || c == '.'

/-- Python regex class `\w` (ASCII): letter, digit or underscore.  Used by the
`method` group. -/
def isWordChar (c : Char) : Bool := c.isAlphanum || c == '_'

/-- Python whitespace (`str.strip`, regex `\s`), ASCII part. -/
def isSpaceChar (c : Char) : Bool :=
  c == ' ' || c == '\t' || c == '\n' || c == '\r' || c == '\x0b' || c == '\x0c'

/-- `str.strip`, left half: drop leading whitespace. -/
def ltrim (l : List Char) : List Char := l.dropWhile isSpaceChar

/-- `str.strip`, right half: drop trailing whitespace. -/
def rtrim (l : List Char) : List Char := (l.reverse.dropWhile isSpaceChar).reverse

/-- Python `str.strip()`: drop leading and trailing whitespace. -/
def trim (l : List Char) : List Char := rtrim (ltrim l)

/-- Consume the literal character sequence `cs` from the front of `l`,
returning the remainder; `none` when `l` does not start with `cs`.  Embeds the
fixed delimiter text between the groups of `LOG_PATTERN`. -/
def expects : List Char → List Char → Option (List Char)
  | [], l => some l
  | _ :: _, [] => none
  | c :: cs, x :: xs => if x = c then expects cs xs else none

/-- One group of `LOG_PATTERN` followed by its literal delimiter: the maximal
run of characters satisfying `p` (required nonempty when `req1`, the `+`
quantifier; possibly empty otherwise, the `*` quantifier), then the literal
`lit`.  Returns the captured run and the remainder after the delimiter. -/
def fieldM (p : Char → Bool) (req1 : Bool) (lit : List Char) (l : List Char) :
    Option (List Char × List Char) :=
  if req1 && (l.takeWhile p).isEmpty then none
  else (expects lit (l.dropWhile p)).map (fun r2 => (l.takeWhile p, r2))

/-- Run a sequence of `fieldM` field descriptions in order, collecting the
captured groups and the final remainder. -/
def runFields : List ((Char → Bool) × Bool × List Char) → List Char →
    Option (List (List Char) × List Char)
  | [], l => some ([], l)
  | (p, req1, lit) :: fs, l =>
    (fieldM p req1 lit l).bind fun pr =>
      (runFields fs pr.2).map fun qr => (pr.1 :: qr.1, qr.2)

/-- The nine groups of `LOG_PATTERN`, in order, each with its quantifier kind
and the literal text that follows it in the pattern:
`^([\d.]+) - \[([^\]]+)\] "(\w+) ([^\s]+) ([^"]+)" (\d+) (\d+) ([\d.]+) "([^"]*)"`. -/
def LOG_FIELDS : List ((Char → Bool) × Bool × List Char) :=
  [ (isDotDigit, true, (" - [").toList),
    (fun c => !(c == ']'), true, ("] \"").toList),
    (isWordChar, true, (" ").toList),
    (fun c => !(isSpaceChar c), true, (" ").toList),
    (fun c => !(c == '"'), true, ("\" ").toList),
    (Char.isDigit, true, (" ").toList),
    (Char.isDigit, true, (" ").toList),
    (isDotDigit, true, (" \"").toList),
    (fun c => !(c == '"'), false, ("\"").toList) ]

/-- The named groups of `LOG_PATTERN` as `parse_line` returns them
(`match.groupdict()`): every field still raw text. -/
structure LogRecord where
  ip : List Char
  time : List Char
  method : List Char
  path : List Char
  protocol : List Char
  status : List Char
  bytes : List Char
  latency : List Char
  cache_status : List Char
deriving Repr, DecidableEq

/-- `LOG_PATTERN.match` on an (already stripped) line: a prefix match that
yields the nine captured groups and the unconsumed remainder. -/
def matchRecord (l : List Char) : Option (LogRecord × List Char) :=
  match runFields LOG_FIELDS l with
  | some ([ip, time, method, path, protocol, status, bytes, latency, cache], rest) =>
    some (⟨ip, time, method, path, protocol, status, bytes, latency, cache⟩, rest)
  | _ => none

/-- `MetricsAnalyzer.parse_line`: strip the line, match `LOG_PATTERN`, return
the group dictionary, or `None` when the pattern does not match. -/
def parse_line (line : List Char) : Option LogRecord :=
  (matchRecord (trim line)).map Prod.fst

/-- Python `int()` on a string of decimal digits (the `status` and `bytes`
groups are digit runs, so the conversion in the code never fails). -/
def digitsToNat (l : List Char) : ℕ :=
  l.foldl (fun n c => n * 10 + (c.toNat - ('0').toNat)) 0

/-- Python `float()` restricted to the strings the `latency` group can
produce (nonempty runs of digits and dots): the conversion succeeds exactly
when the run has at most one dot and at least one digit (`"1.2"`, `"5."`,
`".5"`, `"123"`), and fails otherwise (`"1.2.3"`, `"."`, `"..."`), raising
`ValueError` in Python.  The value is the exact rational the decimal text
denotes (see the header note on rationals versus doubles). -/
def pyFloat (l : List Char) : Option ℚ :=
  if l ≠ [] ∧ (l.all isDotDigit) = true ∧ l.count '.' ≤ 1 ∧ (l.any Char.isDigit) = true then
    some ((digitsToNat (l.takeWhile (fun c => !(c == '.'))) : ℚ) +
      (digitsToNat ((l.dropWhile (fun c => !(c == '.'))).drop 1) : ℚ) /
        (10 : ℚ) ^ ((l.dropWhile (fun c => !(c == '.'))).drop 1).length)
  else none

/-- The dataclass `CacheMetrics`: the counters and the latency observation
list.  Counts are `ℕ` (Python ints, only ever incremented), latencies exact
rationals. -/
structure CacheMetrics where
  total_requests : ℕ := 0
  cache_hits : ℕ := 0
  cache_misses : ℕ := 0
  cache_bypass : ℕ := 0
  cache_stale : ℕ := 0
  cache_updating : ℕ := 0
  cache_revalidated : ℕ := 0
  error_5xx : ℕ := 0
  error_4xx : ℕ := 0
  total_bytes : ℕ := 0
  latencies : List ℚ := []
deriving Repr, DecidableEq

/-- A fresh `CacheMetrics()`: every counter zero, no latency observations. -/
def emptyMetrics : CacheMetrics := {}

/-- The cache-status dispatch of `process_log_line` (lines 124-136): compare
the stripped tag against the six known statuses and increment exactly the
matching counter, or none. -/
def bumpCache (m : CacheMetrics) (cs : List Char) : CacheMetrics :=
  if cs = ("HIT").toList then { m with cache_hits := m.cache_hits + 1 }
  else if cs = ("MISS").toList then { m with cache_misses := m.cache_misses + 1 }
  else if cs = ("BYPASS").toList then { m with cache_bypass := m.cache_bypass + 1 }
  else if cs = ("STALE").toList then { m with cache_stale := m.cache_stale + 1 }
  else if cs = ("UPDATING").toList then { m with cache_updating := m.cache_updating + 1 }
  else if cs = ("REVALIDATED").toList then { m with cache_revalidated := m.cache_revalidated + 1 }
  else m

/-- The status-code dispatch of `process_log_line` (lines 139-143):
`500 <= status < 600` bumps the 5xx counter, else `400 <= status < 500`
bumps the 4xx counter. -/
def bumpError (m : CacheMetrics) (status : ℕ) : CacheMetrics :=
  if 500 ≤ status ∧ status < 600 then { m with error_5xx := m.error_5xx + 1 }
  else if 400 ≤ status ∧ status < 500 then { m with error_4xx := m.error_4xx + 1 }
  else m

/-- The body of `process_log_line` after a successful parse (lines 120-153):
increment `total_requests`, dispatch on the stripped cache status, classify
the status code, add the bytes, and append the latency when `float()`
succeeds (the `try/except` swallows the failure). -/
def foldRecord (m : CacheMetrics) (r : LogRecord) : CacheMetrics :=
  let m1 := { m with total_requests := m.total_requests + 1 }
  let m2 := bumpCache m1 (trim r.cache_status)
  let m3 := bumpError m2 (digitsToNat r.status)
  let m4 := { m3 with total_bytes := m3.total_bytes + digitsToNat r.bytes }
  match pyFloat r.latency with
  | some v => { m4 with latencies := m4.latencies ++ [v] }
  | none => m4

/-- `MetricsAnalyzer.process_log_line`: parse the line; on failure leave the
metrics untouched, on success fold the record in. -/
def process_log_line (m : CacheMetrics) (line : List Char) : CacheMetrics :=
  match parse_line line with
  | none => m
  | some r => foldRecord m r

/-- Python `str.splitlines()` restricted to the `\n`, `\r\n` and `\r`
terminators (the other Unicode terminators never occur in the inputs the
claims concern). -/
def splitLinesAux : List Char → List Char → List (List Char)
  | [], [] => []
  | [], acc => [acc.reverse]
  | '\r' :: '\n' :: rest, acc => acc.reverse :: splitLinesAux rest []
  | '\n' :: rest, acc => acc.reverse :: splitLinesAux rest []
  | '\r' :: rest, acc => acc.reverse :: splitLinesAux rest []
  | c :: rest, acc => splitLinesAux rest (c :: acc)

/-- `content.splitlines()`. -/
def splitLines (content : List Char) : List (List Char) := splitLinesAux content []

/-- `MetricsAnalyzer.process_log_content`: replace the aggregate by a fresh
`CacheMetrics()`, then fold every line whose stripped text is nonempty.  The
argument `m` is the analyzer's aggregate before the call; the result is both
the analyzer's aggregate after the call and the returned snapshot — the
incoming aggregate is discarded unread. -/
def process_log_content (_m : CacheMetrics) (content : List Char) : CacheMetrics :=
  (splitLines content).foldl
    (fun acc line => if (trim line).isEmpty then acc else process_log_line acc line)
    emptyMetrics

/-- Feeding a sequence of lines one by one through `process_log_line`
(the incremental interface): every aggregate state reachable from `m`. -/
def processLines (m : CacheMetrics) (lines : List (List Char)) : CacheMetrics :=
  lines.foldl process_log_line m

/-- `CacheMetrics.hit_ratio`: `hits / (hits + misses)`, `0.0` on a zero
denominator. -/
def hit_ratio (m : CacheMetrics) : ℚ :=
  if m.cache_hits + m.cache_misses = 0 then 0
  else (m.cache_hits : ℚ) / ((m.cache_hits : ℚ) + (m.cache_misses : ℚ))

/-- `CacheMetrics.error_rate`: `(error_5xx + error_4xx) / total_requests`,
`0.0` when there are no requests. -/
def error_rate (m : CacheMetrics) : ℚ :=
  if m.total_requests = 0 then 0
  else ((m.error_5xx : ℚ) + (m.error_4xx : ℚ)) / (m.total_requests : ℚ)

/-- Python `sorted` on the latency observations.  Insertion sort: on a list
of rationals every comparison sort returns the same list, because the sorted
arrangement of a multiset of values is unique. -/
def sortedLats (m : CacheMetrics) : List ℚ := m.latencies.insertionSort (· ≤ ·)

/-- `CacheMetrics.p50_latency`: `statistics.median` of the latencies, `0.0`
when there are none.  `median` sorts and takes the middle element (odd
count) or the mean of the two middle elements (even count). -/
def p50_latency (m : CacheMetrics) : ℚ :=
  if m.latencies = [] then 0
  else if (sortedLats m).length % 2 = 1 then (sortedLats m).getD ((sortedLats m).length / 2) 0
  else ((sortedLats m).getD ((sortedLats m).length / 2 - 1) 0 +
    (sortedLats m).getD ((sortedLats m).length / 2) 0) / 2

/-- `CacheMetrics.p95_latency`: sort, take the element at
`int(len * 0.95)` (exactly `len * 95 / 100` in `Nat` floor division, see the
header), clamped to the last element when the index is out of range; `0.0`
on an empty list. -/
def p95_latency (m : CacheMetrics) : ℚ :=
  if m.latencies = [] then 0
  else if (sortedLats m).length * 95 / 100 < (sortedLats m).length then
    (sortedLats m).getD ((sortedLats m).length * 95 / 100) 0
  else (sortedLats m).getLastD 0

/-- `CacheMetrics.p99_latency`: as `p95_latency` with index
`int(len * 0.99) = len * 99 / 100`. -/
def p99_latency (m : CacheMetrics) : ℚ :=
  if m.latencies = [] then 0
  else if (sortedLats m).length * 99 / 100 < (sortedLats m).length then
    (sortedLats m).getD ((sortedLats m).length * 99 / 100) 0
  else (sortedLats m).getLastD 0

/-- The sum of the six cache-status counters. -/
def sumSix (m : CacheMetrics) : ℕ :=
  m.cache_hits + m.cache_misses + m.cache_bypass + m.cache_stale +
    m.cache_updating + m.cache_revalidated

/-- The spec's percentile rule in its own words: sort the observations
ascending, take `index = floor(count * percentile_fraction)` (the fraction
given as `num / den`), clamp to the last element when `index >= count`, and
yield `0.0` on an empty observation set.  Stated separately from the
definitions read off the code so that agreement is a theorem, not a
tautology. -/
def specRankIndexPercentile (obs : List ℚ) (num den : ℕ) : ℚ :=
  if obs = [] then 0
  else if obs.length ≤ obs.length * num / den then
    (obs.insertionSort (· ≤ ·)).getLastD 0
  else (obs.insertionSort (· ≤ ·)).getD (obs.length * num / den) 0

/-! ### Projection lemmas for the folding step -/

@[simp] lemma bumpCache_total_requests (m : CacheMetrics) (cs : List Char) :
    (bumpCache m cs).total_requests = m.total_requests := by
  unfold bumpCache; split_ifs <;> rfl

@[simp] lemma bumpCache_error_5xx (m : CacheMetrics) (cs : List Char) :
    (bumpCache m cs).error_5xx = m.error_5xx := by
  unfold bumpCache; split_ifs <;> rfl

@[simp] lemma bumpCache_error_4xx (m : CacheMetrics) (cs : List Char) :
    (bumpCache m cs).error_4xx = m.error_4xx := by
  unfold bumpCache; split_ifs <;> rfl

@[simp] lemma bumpCache_total_bytes (m : CacheMetrics) (cs : List Char) :
    (bumpCache m cs).total_bytes = m.total_bytes := by
  unfold bumpCache; split_ifs <;> rfl

@[simp] lemma bumpCache_latencies (m : CacheMetrics) (cs : List Char) :
    (bumpCache m cs).latencies = m.latencies := by
  unfold bumpCache; split_ifs <;> rfl

lemma bumpCache_sumSix_le (m : CacheMetrics) (cs : List Char) :
    sumSix (bumpCache m cs) ≤ sumSix m + 1 := by
  unfold bumpCache; split_ifs <;> simp [sumSix] <;> omega

lemma bumpCache_sumSix_unrecognized (m : CacheMetrics) (cs : List Char)
    (h1 : cs ≠ ("HIT").toList) (h2 : cs ≠ ("MISS").toList)
    (h3 : cs ≠ ("BYPASS").toList) (h4 : cs ≠ ("STALE").toList)
    (h5 : cs ≠ ("UPDATING").toList) (h6 : cs ≠ ("REVALIDATED").toList) :
    bumpCache m cs = m := by
  unfold bumpCache
  rw [if_neg h1, if_neg h2, if_neg h3, if_neg h4, if_neg h5, if_neg h6]

@[simp] lemma bumpError_total_requests (m : CacheMetrics) (st : ℕ) :
    (bumpError m st).total_requests = m.total_requests := by
  unfold bumpError; split_ifs <;> rfl

@[simp] lemma bumpError_total_bytes (m : CacheMetrics) (st : ℕ) :
    (bumpError m st).total_bytes = m.total_bytes := by
  unfold bumpError; split_ifs <;> rfl

@[simp] lemma bumpError_latencies (m : CacheMetrics) (st : ℕ) :
    (bumpError m st).latencies = m.latencies := by
  unfold bumpError; split_ifs <;> rfl

@[simp] lemma bumpError_cache_hits (m : CacheMetrics) (st : ℕ) :
    (bumpError m st).cache_hits = m.cache_hits := by
  unfold bumpError; split_ifs <;> rfl

@[simp] lemma bumpError_cache_misses (m : CacheMetrics) (st : ℕ) :
    (bumpError m st).cache_misses = m.cache_misses := by
  unfold bumpError; split_ifs <;> rfl

@[simp] lemma bumpError_cache_bypass (m : CacheMetrics) (st : ℕ) :
    (bumpError m st).cache_bypass = m.cache_bypass := by
  unfold bumpError; split_ifs <;> rfl

@[simp] lemma bumpError_cache_stale (m : CacheMetrics) (st : ℕ) :
    (bumpError m st).cache_stale = m.cache_stale := by
  unfold bumpError; split_ifs <;> rfl

@[simp] lemma bumpError_cache_updating (m : CacheMetrics) (st : ℕ) :
    (bumpError m st).cache_updating = m.cache_updating := by
  unfold bumpError; split_ifs <;> rfl

@[simp] lemma bumpError_cache_revalidated (m : CacheMetrics) (st : ℕ) :
    (bumpError m st).cache_revalidated = m.cache_revalidated := by
  unfold bumpError; split_ifs <;> rfl

@[simp] lemma bumpError_sumSix (m : CacheMetrics) (st : ℕ) :
    sumSix (bumpError m st) = sumSix m := by
  unfold bumpError; split_ifs <;> rfl

lemma bumpError_err_le (m : CacheMetrics) (st : ℕ) :
    (bumpError m st).error_4xx + (bumpError m st).error_5xx ≤
      m.error_4xx + m.error_5xx + 1 := by
  unfold bumpError; split_ifs <;> simp <;> omega

lemma foldRecord_total_requests (m : CacheMetrics) (r : LogRecord) :
    (foldRecord m r).total_requests = m.total_requests + 1 := by
  unfold foldRecord
  cases hp : pyFloat r.latency <;> simp [hp]

lemma foldRecord_total_bytes (m : CacheMetrics) (r : LogRecord) :
    (foldRecord m r).total_bytes = m.total_bytes + digitsToNat r.bytes := by
  unfold foldRecord
  cases hp : pyFloat r.latency <;> simp [hp]

lemma foldRecord_latencies_none (m : CacheMetrics) (r : LogRecord)
    (hp : pyFloat r.latency = none) :
    (foldRecord m r).latencies = m.latencies := by
  unfold foldRecord; simp [hp]

lemma foldRecord_latencies_some (m : CacheMetrics) (r : LogRecord) (v : ℚ)
    (hp : pyFloat r.latency = some v) :
    (foldRecord m r).latencies = m.latencies ++ [v] := by
  unfold foldRecord; simp [hp]

lemma foldRecord_err_le (m : CacheMetrics) (r : LogRecord) :
    (foldRecord m r).error_4xx + (foldRecord m r).error_5xx ≤
      m.error_4xx + m.error_5xx + 1 := by
  unfold foldRecord
  cases hp : pyFloat r.latency <;>
    · simp only [hp]
      have := bumpError_err_le (bumpCache { m with total_requests := m.total_requests + 1 }
        (trim r.cache_status)) (digitsToNat r.status)
      simp at this ⊢
      omega

lemma foldRecord_sumSix_le (m : CacheMetrics) (r : LogRecord) :
    sumSix (foldRecord m r) ≤ sumSix m + 1 := by
  unfold foldRecord
  cases hp : pyFloat r.latency <;>
    · simp only [hp]
      have h1 := bumpCache_sumSix_le { m with total_requests := m.total_requests + 1 }
        (trim r.cache_status)
      have h2 := bumpError_sumSix (bumpCache { m with total_requests := m.total_requests + 1 }
        (trim r.cache_status)) (digitsToNat r.status)
      simp only [sumSix] at h1 h2 ⊢
      omega

/-! ### Step and reachability lemmas -/

lemma process_log_line_of_none (m : CacheMetrics) (line : List Char)
    (h : parse_line line = none) : process_log_line m line = m := by
  unfold process_log_line; rw [h]

lemma process_log_line_of_some (m : CacheMetrics) (line : List Char) (r : LogRecord)
    (h : parse_line line = some r) : process_log_line m line = foldRecord m r := by
  unfold process_log_line; rw [h]

lemma process_log_line_err_inv (m : CacheMetrics) (line : List Char)
    (h : m.error_4xx + m.error_5xx ≤ m.total_requests) :
    (process_log_line m line).error_4xx + (process_log_line m line).error_5xx ≤
      (process_log_line m line).total_requests := by
  cases hp : parse_line line with
  | none => rw [process_log_line_of_none m line hp]; exact h
  | some r =>
    rw [process_log_line_of_some m line r hp]
    have h1 := foldRecord_err_le m r
    have h2 := foldRecord_total_requests m r
    omega

lemma process_log_line_sumSix_inv (m : CacheMetrics) (line : List Char)
    (h : sumSix m ≤ m.total_requests) :
    sumSix (process_log_line m line) ≤ (process_log_line m line).total_requests := by
  cases hp : parse_line line with
  | none => rw [process_log_line_of_none m line hp]; exact h
  | some r =>
    rw [process_log_line_of_some m line r hp]
    have h1 := foldRecord_sumSix_le m r
    have h2 := foldRecord_total_requests m r
    omega

lemma processLines_err_inv (lines : List (List Char)) :
    ∀ m : CacheMetrics, m.error_4xx + m.error_5xx ≤ m.total_requests →
      (processLines m lines).error_4xx + (processLines m lines).error_5xx ≤
        (processLines m lines).total_requests := by
  induction lines with
  | nil => intro m h; exact h
  | cons l ls ih =>
    intro m h
    exact ih (process_log_line m l) (process_log_line_err_inv m l h)

lemma processLines_sumSix_inv (lines : List (List Char)) :
    ∀ m : CacheMetrics, sumSix m ≤ m.total_requests →
      sumSix (processLines m lines) ≤ (processLines m lines).total_requests := by
  induction lines with
  | nil => intro m h; exact h
  | cons l ls ih =>
    intro m h
    exact ih (process_log_line m l) (process_log_line_sumSix_inv m l h)

lemma error_rate_bounds (m : CacheMetrics)
    (h : m.error_4xx + m.error_5xx ≤ m.total_requests) :
    0 ≤ error_rate m ∧ error_rate m ≤ 1 := by
  unfold error_rate
  split_ifs with h0
  · exact ⟨le_refl 0, zero_le_one⟩
  · constructor
    · positivity
    · rw [div_le_one (by exact_mod_cast Nat.pos_of_ne_zero h0)]
      exact_mod_cast (by omega : m.error_5xx + m.error_4xx ≤ m.total_requests)

lemma foldRecord_sumSix_unrecognized (m : CacheMetrics) (r : LogRecord)
    (h1 : trim r.cache_status ≠ ("HIT").toList) (h2 : trim r.cache_status ≠ ("MISS").toList)
    (h3 : trim r.cache_status ≠ ("BYPASS").toList) (h4 : trim r.cache_status ≠ ("STALE").toList)
    (h5 : trim r.cache_status ≠ ("UPDATING").toList)
    (h6 : trim r.cache_status ≠ ("REVALIDATED").toList) :
    sumSix (foldRecord m r) = sumSix m := by
  unfold foldRecord
  cases hp : pyFloat r.latency <;>
    · simp only [hp]
      rw [bumpCache_sumSix_unrecognized _ _ h1 h2 h3 h4 h5 h6]
      simp [sumSix]

lemma content_fold_id (ls : List (List Char)) :
    ∀ acc : CacheMetrics, (∀ l ∈ ls, parse_line l = none) →
      ls.foldl (fun acc line => if (trim line).isEmpty then acc else process_log_line acc line)
        acc = acc := by
  induction ls with
  | nil => intro acc _; rfl
  | cons l ls ih =>
    intro acc h
    have hl : parse_line l = none := h l (List.mem_cons_self l ls)
    have hstep : (if (trim l).isEmpty then acc else process_log_line acc l) = acc := by
      split_ifs with ht
      · rfl
      · exact process_log_line_of_none acc l hl
    rw [List.foldl_cons, hstep]
    exact ih acc (fun x hx => h x (List.mem_cons_of_mem l hx))

/-! ### The claims -/

/-- C3: `hit_ratio` is `hits / (hits + misses)` on a nonzero denominator and
`0.0` on a zero one; the bypass, stale, updating and revalidated counters
never enter it (two aggregates agreeing on hits and misses get the same
ratio whatever their other counters are); and the ratio always lies in
`[0, 1]`. -/
theorem C3_hit_ratio_definition_and_bounds (m m' : CacheMetrics)
    (h1 : m.cache_hits = m'.cache_hits) (h2 : m.cache_misses = m'.cache_misses) :
    hit_ratio m = hit_ratio m' ∧
    (m.cache_hits + m.cache_misses ≠ 0 →
      hit_ratio m = (m.cache_hits : ℚ) / ((m.cache_hits : ℚ) + (m.cache_misses : ℚ))) ∧
    (m.cache_hits + m.cache_misses = 0 → hit_ratio m = 0) ∧
    0 ≤ hit_ratio m ∧ hit_ratio m ≤ 1 := by
  refine ⟨by unfold hit_ratio; rw [h1, h2], fun hne => by unfold hit_ratio; rw [if_neg hne],
    fun hz => by unfold hit_ratio; rw [if_pos hz], ?_, ?_⟩
  · unfold hit_ratio
    split_ifs
    · exact le_refl 0
    · positivity
  · unfold hit_ratio
    split_ifs with h0
    · exact zero_le_one
    · have hpos : (0 : ℚ) < (m.cache_hits : ℚ) + (m.cache_misses : ℚ) := by
        exact_mod_cast Nat.pos_of_ne_zero h0
      rw [div_le_one hpos]
      exact le_add_of_nonneg_right (by positivity)

/-- C3 witness: the theorem applied to two concrete aggregates agreeing on
hits and misses, one with a nonzero bypass counter. -/
theorem C3_hit_ratio_witness :
    hit_ratio { emptyMetrics with cache_hits := 3, cache_misses := 1, cache_bypass := 7 } =
      hit_ratio { emptyMetrics with cache_hits := 3, cache_misses := 1 } ∧
    (({ emptyMetrics with cache_hits := 3, cache_misses := 1, cache_bypass := 7 } :
        CacheMetrics).cache_hits +
      ({ emptyMetrics with cache_hits := 3, cache_misses := 1, cache_bypass := 7 } :
        CacheMetrics).cache_misses ≠ 0 →
      hit_ratio { emptyMetrics with cache_hits := 3, cache_misses := 1, cache_bypass := 7 } =
        ((3 : ℕ) : ℚ) / (((3 : ℕ) : ℚ) + ((1 : ℕ) : ℚ))) ∧
    (({ emptyMetrics with cache_hits := 3, cache_misses := 1, cache_bypass := 7 } :
        CacheMetrics).cache_hits +
      ({ emptyMetrics with cache_hits := 3, cache_misses := 1, cache_bypass := 7 } :
        CacheMetrics).cache_misses = 0 →
      hit_ratio { emptyMetrics with cache_hits := 3, cache_misses := 1, cache_bypass := 7 } = 0) ∧
    0 ≤ hit_ratio { emptyMetrics with cache_hits := 3, cache_misses := 1, cache_bypass := 7 } ∧
    hit_ratio { emptyMetrics with cache_hits := 3, cache_misses := 1, cache_bypass := 7 } ≤ 1 :=
  C3_hit_ratio_definition_and_bounds
    { emptyMetrics with cache_hits := 3, cache_misses := 1, cache_bypass := 7 }
    { emptyMetrics with cache_hits := 3, cache_misses := 1 } rfl rfl

/-- C4: `process_log_content` replaces the aggregate by a fresh zeroed one
before folding, so the result never depends on the aggregate the analyzer
held before the call, and a second run on the same text returns an
identical snapshot. -/
theorem C4_process_content_idempotent (m m' : CacheMetrics) (content : List Char) :
    process_log_content (process_log_content m content) content =
      process_log_content m content ∧
    process_log_content m content = process_log_content m' content :=
  ⟨rfl, rfl⟩

/-- C5: in every aggregate reachable from a fresh `CacheMetrics` the error
counters sum to at most `total_requests`, so `error_rate` lies in `[0, 1]`. -/
theorem C5_error_rate_bounded (lines : List (List Char)) :
    (processLines emptyMetrics lines).error_4xx + (processLines emptyMetrics lines).error_5xx ≤
      (processLines emptyMetrics lines).total_requests ∧
    0 ≤ error_rate (processLines emptyMetrics lines) ∧
    error_rate (processLines emptyMetrics lines) ≤ 1 := by
  have hrec := processLines_err_inv lines emptyMetrics (by decide)
  exact ⟨hrec, (error_rate_bounds _ hrec).1, (error_rate_bounds _ hrec).2⟩

/-- C6: per successfully parsed record the cache-status dispatch bumps at
most one of the six counters (none on an unrecognized tag) while
`total_requests` always bumps, and hence in every reachable aggregate the
six cache-status counters sum to at most `total_requests`. -/
theorem C6_exclusive_dispatch (lines : List (List Char)) (m : CacheMetrics)
    (line : List Char) (r : LogRecord) (h : parse_line line = some r) :
    sumSix (processLines emptyMetrics lines) ≤ (processLines emptyMetrics lines).total_requests ∧
    (process_log_line m line).total_requests = m.total_requests + 1 ∧
    sumSix (process_log_line m line) ≤ sumSix m + 1 ∧
    ((trim r.cache_status ≠ ("HIT").toList ∧ trim r.cache_status ≠ ("MISS").toList ∧
      trim r.cache_status ≠ ("BYPASS").toList ∧ trim r.cache_status ≠ ("STALE").toList ∧
      trim r.cache_status ≠ ("UPDATING").toList ∧
      trim r.cache_status ≠ ("REVALIDATED").toList) →
      sumSix (process_log_line m line) = sumSix m) := by
  have he := process_log_line_of_some m line r h
  refine ⟨processLines_sumSix_inv lines emptyMetrics (by decide), ?_, ?_, ?_⟩
  · rw [he]; exact foldRecord_total_requests m r
  · rw [he]; exact foldRecord_sumSix_le m r
  · rintro ⟨h1, h2, h3, h4, h5, h6⟩
    rw [he]
    exact foldRecord_sumSix_unrecognized m r h1 h2 h3 h4 h5 h6

/-- The line of the C6 witness: a valid record whose cache-status tag
`EXPIRED` is outside the six-tag vocabulary. -/
def lineExpired : List Char :=
  ("10.0.0.1 - [27/Oct/2025:10:00:00 +0000] \"GET /x HTTP/1.1\" 200 50 0.1 \"EXPIRED\"").toList

/-- The record `parse_line` returns for `lineExpired`. -/
def recExpired : LogRecord :=
  ⟨("10.0.0.1").toList, ("27/Oct/2025:10:00:00 +0000").toList, ("GET").toList,
    ("/x").toList, ("HTTP/1.1").toList, ("200").toList, ("50").toList,
    ("0.1").toList, ("EXPIRED").toList⟩

/-- C6 witness: the theorem applied to the empty run and to the
unrecognized-tag line on the empty aggregate. -/
theorem C6_exclusive_dispatch_witness :
    sumSix (processLines emptyMetrics []) ≤ (processLines emptyMetrics []).total_requests ∧
    (process_log_line emptyMetrics lineExpired).total_requests =
      emptyMetrics.total_requests + 1 ∧
    sumSix (process_log_line emptyMetrics lineExpired) ≤ sumSix emptyMetrics + 1 ∧
    ((trim recExpired.cache_status ≠ ("HIT").toList ∧
      trim recExpired.cache_status ≠ ("MISS").toList ∧
      trim recExpired.cache_status ≠ ("BYPASS").toList ∧
      trim recExpired.cache_status ≠ ("STALE").toList ∧
      trim recExpired.cache_status ≠ ("UPDATING").toList ∧
      trim recExpired.cache_status ≠ ("REVALIDATED").toList) →
      sumSix (process_log_line emptyMetrics lineExpired) = sumSix emptyMetrics) :=
  C6_exclusive_dispatch [] emptyMetrics lineExpired recExpired (by decide)

/-- C7: a line that matches the grammar but whose latency text fails the
float conversion is still folded in full — the fold is exactly
`foldRecord`, `total_requests` and `total_bytes` advance — and the latency
list is left untouched; the line is never rejected for its latency. -/
theorem C7_unparseable_latency_still_counted (m : CacheMetrics) (line : List Char)
    (r : LogRecord) (h1 : parse_line line = some r) (h2 : pyFloat r.latency = none) :
    process_log_line m line = foldRecord m r ∧
    (process_log_line m line).latencies = m.latencies ∧
    (process_log_line m line).total_requests = m.total_requests + 1 ∧
    (process_log_line m line).total_bytes = m.total_bytes + digitsToNat r.bytes := by
  have he := process_log_line_of_some m line r h1
  refine ⟨he, ?_, ?_, ?_⟩ <;> rw [he]
  · exact foldRecord_latencies_none m r h2
  · exact foldRecord_total_requests m r
  · exact foldRecord_total_bytes m r

/-- The line of the C7 witness: its latency field `1.2.3` matches the
`[\d.]+` group of `LOG_PATTERN` but `float("1.2.3")` raises `ValueError`. -/
def lineDotDot : List Char :=
  ("1.2.3.4 - [27/Oct/2025:10:00:00 +0000] \"GET / HTTP/1.1\" 200 100 1.2.3 \"HIT\"").toList

/-- The record `parse_line` returns for `lineDotDot`. -/
def recDotDot : LogRecord :=
  ⟨("1.2.3.4").toList, ("27/Oct/2025:10:00:00 +0000").toList, ("GET").toList,
    ("/").toList, ("HTTP/1.1").toList, ("200").toList, ("100").toList,
    ("1.2.3").toList, ("HIT").toList⟩

/-- C7 witness: the theorem applied to the latency-`1.2.3` line on the empty
aggregate. -/
theorem C7_unparseable_latency_witness :
    process_log_line emptyMetrics lineDotDot = foldRecord emptyMetrics recDotDot ∧
    (process_log_line emptyMetrics lineDotDot).latencies = emptyMetrics.latencies ∧
    (process_log_line emptyMetrics lineDotDot).total_requests =
      emptyMetrics.total_requests + 1 ∧
    (process_log_line emptyMetrics lineDotDot).total_bytes =
      emptyMetrics.total_bytes + digitsToNat recDotDot.bytes :=
  C7_unparseable_latency_still_counted emptyMetrics lineDotDot recDotDot (by decide) (by decide)

/-- C9: no core operation can fail (all the embedded operations are total
functions); a non-matching line is counted nowhere, and content whose every
line fails to parse produces exactly the all-zero snapshot, whose derived
statistics are all `0.0`. -/
theorem C9_no_error_path (m : CacheMetrics) (line content : List Char)
    (h1 : parse_line line = none)
    (h2 : ∀ l ∈ splitLines content, parse_line l = none) :
    process_log_line m line = m ∧
    process_log_content m content = emptyMetrics ∧
    hit_ratio emptyMetrics = 0 ∧ error_rate emptyMetrics = 0 ∧
    p50_latency emptyMetrics = 0 ∧ p95_latency emptyMetrics = 0 ∧
    p99_latency emptyMetrics = 0 := by
  refine ⟨process_log_line_of_none m line h1, ?_, rfl, rfl, rfl, rfl, rfl⟩
  unfold process_log_content
  exact content_fold_id (splitLines content) emptyMetrics h2

/-- A line that is not a request record. -/
def bannerLine : List Char := ("log rotated at 03:00, see you tomorrow").toList

/-- Content made only of non-record lines and blanks. -/
def bannerContent : List Char :=
  ("log rotated at 03:00\n\n*** maintenance window ***\n").toList

/-- C9 witness: the theorem applied to a concrete non-record line and a
concrete content block none of whose lines parse. -/
theorem C9_no_error_path_witness :
    process_log_line emptyMetrics bannerLine = emptyMetrics ∧
    process_log_content emptyMetrics bannerContent = emptyMetrics ∧
    hit_ratio emptyMetrics = 0 ∧ error_rate emptyMetrics = 0 ∧
    p50_latency emptyMetrics = 0 ∧ p95_latency emptyMetrics = 0 ∧
    p99_latency emptyMetrics = 0 :=
  C9_no_error_path emptyMetrics bannerLine bannerContent (by decide) (by decide)

/-- C2: the code's P95 and P99 agree with the spec's rank-index rule
(`index = floor(count * fraction)`, clamped to the last element when
`index >= count`), and an empty observation list yields `0.0` for P50, P95
and P99 alike. -/
theorem C2_percentile_rank_index (m : CacheMetrics) :
    p95_latency m = specRankIndexPercentile m.latencies 95 100 ∧
    p99_latency m = specRankIndexPercentile m.latencies 99 100 ∧
    (m.latencies = [] → p50_latency m = 0 ∧ p95_latency m = 0 ∧ p99_latency m = 0) := by
  by_cases hemp : m.latencies = []
  · refine ⟨?_, ?_, fun _ => ⟨?_, ?_, ?_⟩⟩ <;>
      simp [p50_latency, p95_latency, p99_latency, specRankIndexPercentile, hemp]
  · refine ⟨?_, ?_, fun hc => absurd hc hemp⟩ <;>
    · simp only [p95_latency, p99_latency, specRankIndexPercentile, sortedLats,
        List.length_insertionSort, if_neg hemp]
      split_ifs <;> first | rfl | (exfalso; omega)

/-- The exact line of the spec's non-numeric-latency scenario. -/
def lineNotANumber : List Char :=
  ("1.2.3.4 - [27/Oct/2025:10:00:00 +0000] \"GET / HTTP/1.1\" 200 100 notanumber \"HIT\"").toList

/-- C1 counterexample: on the spec's own scenario line the latency field
`notanumber` fails the `[\d.]+` group, so `LOG_PATTERN` does not match at
all — processing the line on a fresh aggregate leaves `total_requests` and
`cache_hits` at `0` (the claim says both are incremented). -/
theorem C1_notanumber_counterexample :
    parse_line lineNotANumber = none ∧
    (process_log_line emptyMetrics lineNotANumber).total_requests = 0 ∧
    (process_log_line emptyMetrics lineNotANumber).cache_hits = 0 := by decide

/-- C1 as amended: a line whose latency field is the token `notanumber`
does not match the record grammar, so processing it changes nothing at all —
in particular `total_requests` and `cache_hits` stay put and the latency
list does not grow (the code rejects the whole line rather than counting it
without a latency observation). -/
theorem C1_notanumber_line_not_counted (m : CacheMetrics) :
    parse_line lineNotANumber = none ∧ process_log_line m lineNotANumber = m ∧
    (process_log_line m lineNotANumber).latencies = m.latencies := by
  have h : parse_line lineNotANumber = none := by decide
  have h2 := process_log_line_of_none m lineNotANumber h
  exact ⟨h, h2, by rw [h2]⟩

lemma sorted_getD_le_getD (s : List ℚ) (hs : List.Sorted (· ≤ ·) s) {i j : ℕ}
    (hij : i ≤ j) (hj : j < s.length) : s.getD i 0 ≤ s.getD j 0 := by
  have hi : i < s.length := lt_of_le_of_lt hij hj
  rw [List.getD_eq_getElem?_getD, List.getD_eq_getElem?_getD,
    List.getElem?_eq_getElem hi, List.getElem?_eq_getElem hj]
  have := hs.rel_get_of_le (a := ⟨i, hi⟩) (b := ⟨j, hj⟩) (Fin.mk_le_mk.mpr hij)
  simpa [List.get_eq_getElem] using this

/-- C8: for every aggregate the three derived percentiles satisfy
`P50 ≤ P95 ≤ P99`, with P50 the statistical median (mean of the two middle
elements on an even count) and P95/P99 the rank-index values. -/
theorem C8_percentiles_monotone (m : CacheMetrics) :
    p50_latency m ≤ p95_latency m ∧ p95_latency m ≤ p99_latency m := by
  by_cases hemp : m.latencies = []
  · simp [p50_latency, p95_latency, p99_latency, hemp]
  · have hs : List.Sorted (· ≤ ·) (sortedLats m) := List.sorted_insertionSort _ _
    have hn : 1 ≤ (sortedLats m).length := by
      rw [sortedLats, List.length_insertionSort]
      exact List.length_pos.mpr hemp
    have hi95 : (sortedLats m).length * 95 / 100 < (sortedLats m).length := by omega
    have hi99 : (sortedLats m).length * 99 / 100 < (sortedLats m).length := by omega
    have h9599 : (sortedLats m).length * 95 / 100 ≤ (sortedLats m).length * 99 / 100 := by
      omega
    constructor
    · unfold p50_latency p95_latency
      rw [if_neg hemp, if_neg hemp, if_pos hi95]
      split_ifs with hodd
      · exact sorted_getD_le_getD _ hs (by omega) hi95
      · have hab : (sortedLats m).getD ((sortedLats m).length / 2 - 1) 0 ≤
            (sortedLats m).getD ((sortedLats m).length / 2) 0 :=
          sorted_getD_le_getD _ hs (by omega) (by omega)
        have hbc : (sortedLats m).getD ((sortedLats m).length / 2) 0 ≤
            (sortedLats m).getD ((sortedLats m).length * 95 / 100) 0 :=
          sorted_getD_le_getD _ hs (by omega) hi95
        linarith
    · unfold p95_latency p99_latency
      rw [if_neg hemp, if_neg hemp, if_pos hi95, if_pos hi99]
      exact sorted_getD_le_getD _ hs h9599 hi99

/-! ### Prefix stability of the matcher (for C10)

A successful `matchRecord` consumes a prefix that is pinned down by the
input alone: appending text can neither break the match nor change any
captured group, because every greedy run already stops at a character
inside the matched region. -/

lemma expects_append (cs : List Char) :
    ∀ l r t, expects cs l = some r → expects cs (l ++ t) = some (r ++ t) := by
  induction cs with
  | nil =>
    intro l r t h
    have h1 : l = r := Option.some.inj h
    subst h1
    rfl
  | cons c cs ih =>
    intro l r t h
    cases l with
    | nil => simp [expects] at h
    | cons x xs =>
      simp only [List.cons_append, expects] at h ⊢
      by_cases hxc : x = c
      · rw [if_pos hxc] at h ⊢
        exact ih xs r t h
      · rw [if_neg hxc] at h
        exact absurd h (by simp)

lemma takeWhile_append_of_dropWhile_ne_nil {p : Char → Bool} {l : List Char}
    (t : List Char) (h : l.dropWhile p ≠ []) :
    (l ++ t).takeWhile p = l.takeWhile p := by
  have hlen : (l.takeWhile p).length ≠ l.length := by
    intro he
    apply h
    have hl := congrArg List.length (List.takeWhile_append_dropWhile (p := p) (l := l))
    rw [List.length_append] at hl
    exact List.eq_nil_of_length_eq_zero (by omega)
  rw [List.takeWhile_append, if_neg hlen]

lemma dropWhile_append_of_dropWhile_ne_nil {p : Char → Bool} {l : List Char}
    (t : List Char) (h : l.dropWhile p ≠ []) :
    (l ++ t).dropWhile p = l.dropWhile p ++ t := by
  rw [List.dropWhile_append, if_neg (by simpa [List.isEmpty_iff] using h)]

lemma fieldM_append (p : Char → Bool) (req1 : Bool) (lit l tok r t : List Char)
    (hlit : lit ≠ []) (h : fieldM p req1 lit l = some (tok, r)) :
    fieldM p req1 lit (l ++ t) = some (tok, r ++ t) := by
  unfold fieldM at h ⊢
  by_cases hcond : (req1 && (l.takeWhile p).isEmpty) = true
  · rw [if_pos hcond] at h
    exact absurd h (by simp)
  · rw [if_neg hcond] at h
    cases hex : expects lit (l.dropWhile p) with
    | none => rw [hex] at h; exact absurd h (by simp)
    | some r2 =>
      rw [hex] at h
      simp only [Option.map_some'] at h
      obtain ⟨htok, hr⟩ := Prod.mk.inj (Option.some.inj h)
      subst htok
      subst hr
      have hdw : l.dropWhile p ≠ [] := by
        intro hnil
        rw [hnil] at hex
        cases cs : lit with
        | nil => exact hlit cs
        | cons a as => rw [cs] at hex; simp [expects] at hex
      rw [takeWhile_append_of_dropWhile_ne_nil t hdw, if_neg hcond,
        dropWhile_append_of_dropWhile_ne_nil t hdw,
        expects_append lit (l.dropWhile p) r2 t hex]
      rfl

lemma runFields_append (fs : List ((Char → Bool) × Bool × List Char)) :
    ∀ l toks rest t, (∀ f ∈ fs, f.2.2 ≠ []) → runFields fs l = some (toks, rest) →
      runFields fs (l ++ t) = some (toks, rest ++ t) := by
  induction fs with
  | nil =>
    intro l toks rest t _ h
    simp only [runFields] at h ⊢
    obtain ⟨htoks, hrest⟩ := Prod.mk.inj (Option.some.inj h)
    rw [htoks, hrest]
  | cons f fs ih =>
    intro l toks rest t hne h
    obtain ⟨p, req1, lit⟩ := f
    simp only [runFields] at h ⊢
    cases hf : fieldM p req1 lit l with
    | none => rw [hf] at h; exact absurd h (by simp)
    | some pr =>
      obtain ⟨tok, l1⟩ := pr
      rw [hf] at h
      simp only [Option.some_bind] at h
      cases hr : runFields fs l1 with
      | none => rw [hr] at h; exact absurd h (by simp)
      | some pr2 =>
        obtain ⟨toks2, rest2⟩ := pr2
        rw [hr] at h
        simp only [Option.map_some'] at h
        have hlit : lit ≠ [] := hne (p, req1, lit) (List.mem_cons_self _ _)
        rw [fieldM_append p req1 lit l tok l1 t hlit hf]
        simp only [Option.some_bind]
        rw [ih l1 toks2 rest2 t (fun g hg => hne g (List.mem_cons_of_mem _ hg)) hr]
        simp only [Option.map_some']
        obtain ⟨h1, h2⟩ := Prod.mk.inj (Option.some.inj h)
        rw [← h1, ← h2]

lemma matchRecord_append (l : List Char) (r : LogRecord) (rest t : List Char)
    (h : matchRecord l = some (r, rest)) : matchRecord (l ++ t) = some (r, rest ++ t) := by
  unfold matchRecord at h ⊢
  cases hr : runFields LOG_FIELDS l with
  | none => rw [hr] at h; exact absurd h (by simp)
  | some pr =>
    obtain ⟨toks, rest'⟩ := pr
    rw [hr] at h
    rw [runFields_append LOG_FIELDS l toks rest' t (by decide) hr]
    split at h
    next ip time method path protocol status bytes latency cache rest9 heq =>
      obtain ⟨htoks, hrest'⟩ := Prod.mk.inj (Option.some.inj heq)
      subst htoks
      subst hrest'
      obtain ⟨hrec, hrest2⟩ := Prod.mk.inj (Option.some.inj h)
      rw [← hrec, ← hrest2]
    all_goals exact absurd h (by simp)

lemma matchRecord_nil : matchRecord ([] : List Char) = none := by decide

/-! ### Trimming versus appending (for C10) -/

lemma eq_rtrim_append (l : List Char) : ∃ w, l = rtrim l ++ w := by
  refine ⟨(l.reverse.takeWhile isSpaceChar).reverse, ?_⟩
  unfold rtrim
  calc l = l.reverse.reverse := (List.reverse_reverse l).symm
    _ = (l.reverse.takeWhile isSpaceChar ++ l.reverse.dropWhile isSpaceChar).reverse := by
        rw [List.takeWhile_append_dropWhile]
    _ = (l.reverse.dropWhile isSpaceChar).reverse ++ (l.reverse.takeWhile isSpaceChar).reverse := by
        rw [List.reverse_append]

lemma dropWhile_head_false {p : Char → Bool} :
    ∀ {l : List Char} {x : Char} {xs : List Char}, l.dropWhile p = x :: xs → p x = false := by
  intro l
  induction l with
  | nil => intro x xs h; simp at h
  | cons a as ih =>
    intro x xs h
    by_cases hpa : p a = true
    · rw [List.dropWhile_cons_of_pos hpa] at h
      exact ih h
    · rw [List.dropWhile_cons_of_neg hpa] at h
      obtain ⟨h1, h2⟩ := List.cons.inj h
      simp only [Bool.not_eq_true] at hpa
      rw [← h1]
      exact hpa

lemma rtrim_decomp (l : List Char) :
    rtrim l = [] ∨ ∃ a c, rtrim l = a ++ [c] ∧ isSpaceChar c = false := by
  unfold rtrim
  cases hd : l.reverse.dropWhile isSpaceChar with
  | nil => left; rfl
  | cons x xs =>
    right
    exact ⟨xs.reverse, x, by simp, dropWhile_head_false hd⟩

lemma rtrim_append_of_last_not_space (a : List Char) (c : Char) (b : List Char)
    (hc : isSpaceChar c = false) : rtrim ((a ++ [c]) ++ b) = (a ++ [c]) ++ rtrim b := by
  unfold rtrim
  rw [List.reverse_append, List.reverse_append, List.reverse_singleton,
    List.singleton_append, List.dropWhile_append]
  by_cases hb : (b.reverse.dropWhile isSpaceChar).isEmpty
  · rw [if_pos hb]
    have hbnil : b.reverse.dropWhile isSpaceChar = [] := by
      simpa [List.isEmpty_iff] using hb
    rw [hbnil, List.dropWhile_cons_of_neg (by simp [hc])]
    simp
  · rw [if_neg hb]
    simp [List.reverse_append]

lemma ltrim_append_of_ne_nil (s t : List Char) (h : ltrim s ≠ []) :
    ltrim (s ++ t) = ltrim s ++ t := by
  unfold ltrim at h ⊢
  rw [List.dropWhile_append, if_neg (by simpa [List.isEmpty_iff] using h)]

lemma trim_append (s t : List Char) (h : trim s ≠ []) :
    ∃ q, trim (s ++ t) = trim s ++ q := by
  unfold trim at h ⊢
  have hl : ltrim s ≠ [] := by
    intro hnil
    apply h
    rw [hnil]
    rfl
  rcases rtrim_decomp (ltrim s) with hnil | ⟨a, c, hac, hc⟩
  · exact absurd hnil h
  · obtain ⟨w, hw⟩ := eq_rtrim_append (ltrim s)
    have hls : ltrim s = (a ++ [c]) ++ w := by rw [← hac]; exact hw
    refine ⟨rtrim (w ++ t), ?_⟩
    rw [ltrim_append_of_ne_nil s t hl, hac, hls, List.append_assoc (a ++ [c]) w t]
    exact rtrim_append_of_last_not_space a c (w ++ t) hc

/-- C10: `LOG_PATTERN.match` anchors only at the start, not at the end:
whenever a line parses to a record, that line followed by any extra text
still parses to the very same record — trailing text after the closing
quote of the cache-status field is simply ignored. -/
theorem C10_parse_line_prefix_extension (s t : List Char) (r : LogRecord)
    (h : parse_line s = some r) : parse_line (s ++ t) = some r := by
  unfold parse_line at h ⊢
  cases hm : matchRecord (trim s) with
  | none => rw [hm] at h; simp at h
  | some pr =>
    obtain ⟨r', rest⟩ := pr
    rw [hm] at h
    simp only [Option.map_some'] at h
    have hr' : r' = r := Option.some.inj h
    subst hr'
    have htrim_ne : trim s ≠ [] := by
      intro hnil
      rw [hnil, matchRecord_nil] at hm
      exact Option.noConfusion hm
    obtain ⟨q, hq⟩ := trim_append s t htrim_ne
    rw [hq, matchRecord_append (trim s) r' rest q hm]
    rfl

/-- The line and extension of the C10 witness. -/
def lineHit : List Char :=
  ("192.168.1.100 - [27/Oct/2025:10:00:00 +0000] \"GET /api/static HTTP/1.1\" 200 1234 0.050 \"HIT\"").toList

/-- Arbitrary trailing text, containing a quote and spaces. -/
def tailJunk : List Char := (" extra \"quoted\" trailing text").toList

/-- The record `parse_line` returns for `lineHit`. -/
def recHit : LogRecord :=
  ⟨("192.168.1.100").toList, ("27/Oct/2025:10:00:00 +0000").toList, ("GET").toList,
    ("/api/static").toList, ("HTTP/1.1").toList, ("200").toList, ("1234").toList,
    ("0.050").toList, ("HIT").toList⟩

/-- C10 witness: the theorem applied to a concrete matching line and a
concrete extension. -/
theorem C10_parse_line_prefix_witness :
    parse_line (lineHit ++ tailJunk) = some recHit :=
  C10_parse_line_prefix_extension lineHit tailJunk recHit (by decide)

end EdgeCache
